import Mathlib

/-!
Verification development for the `pwfilter` password-wordlist filtering tool
(sources: `pwfilter/core.py`, `pwfilter/presets.py`, `pwfilter/cli.py`).

The Python code is shallowly embedded:
  * strings are Lean `String` / `List Char`;
  * `str.strip()` / `str.lower()` are modelled on the ASCII fragment that the
    claims exercise (`pyStrip`, `pyLower`);
  * compiled regular expressions (`re.compile` objects) are modelled by an
    executable `Regex` AST covering the constructs appearing in the preset
    patterns (character classes, concatenation, `.{n,}` style repetition,
    lookahead `(?=...)`, and the `^` / `$` anchors), with `Regex.search`
    implementing Python's `re.search` semantics (try a match at every start
    position; `$` also matches just before a final newline);
  * the filtering loop of `filter_passwords` (core.py lines 57-86) becomes a
    structural recursion over the list of input lines producing the emitted
    lines and the three run counters.
-/

/-- Whitespace characters removed by Python `str.strip()` (the ASCII /
Latin-1 fragment: TAB, LF, VT, FF, CR, FS, GS, RS, US, SPACE, NEL, NBSP). -/
def isPySpace (c : Char) : Bool :=
  c.toNat = 9 || c.toNat = 10 || c.toNat = 11 || c.toNat = 12 || c.toNat = 13 ||
  c.toNat = 28 || c.toNat = 29 || c.toNat = 30 || c.toNat = 31 || c.toNat = 32 ||
  c.toNat = 133 || c.toNat = 160

/-- Python `str.strip()` on a list of characters: drop leading and trailing
whitespace. -/
def pyStripList (l : List Char) : List Char :=
  ((l.dropWhile isPySpace).reverse.dropWhile isPySpace).reverse

/-- Python `str.strip()`. -/
def pyStrip (s : String) : String :=
  ⟨pyStripList s.data⟩

/-- ASCII case folding of one character, the fragment of Python
`str.lower()` that the tool's inputs exercise. -/
def pyLowerChar (c : Char) : Char :=
  if 65 ≤ c.toNat ∧ c.toNat ≤ 90 then Char.ofNat (c.toNat + 32) else c

/-- Python `str.lower()` (ASCII fragment). -/
def pyLower (s : String) : String :=
  ⟨s.data.map pyLowerChar⟩

/-- Class `[a-z]`. -/
def isLowerAZ (c : Char) : Bool := 97 ≤ c.toNat && c.toNat ≤ 122

/-- Class `[A-Z]`. -/
def isUpperAZ (c : Char) : Bool := 65 ≤ c.toNat && c.toNat ≤ 90

/-- Class `[0-9]`. -/
def isDigit09 (c : Char) : Bool := 48 ≤ c.toNat && c.toNat ≤ 57

/-- The special-character class `SPECIAL_CHARS_REGEX` of presets.py line 1,
by character code: ! @ # $ % ^ & * ( ) _ + - = [ ] left-brace right-brace
; apostrophe : double-quote backslash | , . < > / ? ~ backtick. -/
def isSpecialChar (c : Char) : Bool :=
  c.toNat ∈ [33, 64, 35, 36, 37, 94, 38, 42, 40, 41, 95, 43, 45, 61, 91, 93,
             123, 125, 59, 39, 58, 34, 92, 124, 44, 46, 60, 62, 47, 63, 126, 96]

/-- The class matched by `.` in Python regexes (without DOTALL): any
character except the newline. -/
def dotP (c : Char) : Bool := c.toNat ≠ 10

/-- Abstract syntax of the compiled regular expressions the tool uses:
character classes, concatenation, Kleene star over a character class,
lookahead, and the two anchors.  A `re.compile` object is modelled by a
value of this type. -/
inductive Regex where
  | emptyR : Regex
  | cls : (Char → Bool) → Regex
  | seq : Regex → Regex → Regex
  | starCls : (Char → Bool) → Regex
  | look : Regex → Regex
  | anchorStart : Regex
  | anchorEnd : Regex

/-- All ways for `p*` to consume a prefix of `l`: each result records
whether at least one character was consumed, and the remaining suffix. -/
def starRem (p : Char → Bool) : List Char → List (Bool × List Char)
  | [] => [(false, [])]
  | c :: cs =>
    (false, c :: cs) :: (if p c then (starRem p cs).map (fun x => (true, x.2)) else [])

/-- Backtracking matcher: `r.mtch st l` returns every pair
`(st', remainder)` reachable by matching `r` at the start of `l`, where
`st` records whether the current position is the very start of the subject
string (needed for the `^` anchor) and `st'` is that flag after the match.
The `$` anchor matches at the end of the subject or just before a final
newline, as in Python. -/
def Regex.mtch : Regex → Bool → List Char → List (Bool × List Char)
  | .emptyR, st, l => [(st, l)]
  | .cls _, _, [] => []
  | .cls p, _, c :: cs => if p c then [(false, cs)] else []
  | .seq a b, st, l => (a.mtch st l).flatMap (fun r => b.mtch r.1 r.2)
  | .starCls p, st, l => (starRem p l).map (fun r => (if r.1 then false else st, r.2))
  | .look a, st, l => if (a.mtch st l).isEmpty then [] else [(st, l)]
  | .anchorStart, st, l => if st then [(st, l)] else []
  | .anchorEnd, st, l => if l.isEmpty || l == [Char.ofNat 10] then [(st, l)] else []

/-- Whether `r` matches starting exactly at the current position. -/
def Regex.matchesHere (r : Regex) (st : Bool) (l : List Char) : Bool :=
  !(r.mtch st l).isEmpty

/-- Scan of `re.search`: try to match at the current position, then at every
later position. -/
def searchFrom (r : Regex) : Bool → List Char → Bool
  | st, [] => r.matchesHere st []
  | st, c :: cs => r.matchesHere st (c :: cs) || searchFrom r false cs

/-- Python `compiled.search(s)` as a Boolean: does `r` match anywhere in
`s`? -/
def Regex.search (r : Regex) (s : String) : Bool :=
  searchFrom r true s.data

/-- Case-insensitive variant of a character class under `re.IGNORECASE`
(ASCII fragment): a character matches if some case variant of it is in the
class. -/
def igClass (p : Char → Bool) (c : Char) : Bool :=
  p c || p (pyLowerChar c) || p (Char.ofNat (if 97 ≤ c.toNat ∧ c.toNat ≤ 122 then c.toNat - 32 else c.toNat))

/-- Effect of compiling a pattern with the `re.IGNORECASE` flag: every
character class becomes case-insensitive. -/
def Regex.igcase : Regex → Regex
  | .emptyR => .emptyR
  | .cls p => .cls (igClass p)
  | .seq a b => .seq a.igcase b.igcase
  | .starCls p => .starCls (igClass p)
  | .look a => .look a.igcase
  | .anchorStart => .anchorStart
  | .anchorEnd => .anchorEnd

/-- Compilation step of core.py lines 25-36: each pattern is compiled with
`re.IGNORECASE` when `ignore_case` is set, and as written otherwise. -/
def compileRegexes (regex_patterns : List Regex) (ignore_case : Bool) : List Regex :=
  regex_patterns.map (fun r => if ignore_case then r.igcase else r)

/-- The run counters kept by `filter_passwords`:
`count_total_processed_lines`, `count_valid_passwords` (non-blank lines)
and `count_matched` (lines written to the output). -/
structure RunCounters where
  total_lines_read : Nat
  non_blank_lines : Nat
  lines_emitted : Nat
deriving DecidableEq, Repr

/-- Result of one `filter_passwords` run: the lines written to the output
file, in order, and the final counters. -/
structure FilterResult where
  output : List String
  counters : RunCounters
deriving DecidableEq, Repr

/-- Dictionary-set construction of core.py lines 38-51: strip each line of
the dictionary file, skip blank lines, and lower-case the word when
`ignore_case` is set.  (Python uses a `set`; a list with the same members
models it, membership being all that is ever queried.) -/
def buildDict (dictionary_lines : List String) (ignore_case : Bool) : List String :=
  (dictionary_lines.map pyStrip).filter (fun w => !(w = "")) |>.map
    (fun w => if ignore_case then pyLower w else w)

/-- Per-line criteria evaluation of core.py lines 66-77: the dictionary
check (when a dictionary filter is active) followed by the conjunction of
all compiled regex matchers, each applied with `search` semantics. -/
def allCriteriaMet (password : String) (is_dictionary_filter_active : Bool)
    (dictionary_words : List String) (compiled_regexes : List Regex)
    (ignore_case : Bool) : Bool :=
  let dictOk :=
    if is_dictionary_filter_active then
      dictionary_words.contains (if ignore_case then pyLower password else password)
    else true
  dictOk && compiled_regexes.all (fun r => r.search password)

/-- Main loop of core.py lines 57-86: strip each raw line, skip blank
lines, evaluate the criteria, apply `invert_match`, and write the kept
candidates while accumulating the counters. -/
def runLines (compiled_regexes : List Regex) (is_dictionary_filter_active : Bool)
    (dictionary_words : List String) (invert_match ignore_case : Bool) :
    List String → FilterResult
  | [] => ⟨[], ⟨0, 0, 0⟩⟩
  | raw_line :: rest =>
    let r := runLines compiled_regexes is_dictionary_filter_active dictionary_words
      invert_match ignore_case rest
    let password := pyStrip raw_line
    if password = "" then
      ⟨r.output, ⟨r.counters.total_lines_read + 1, r.counters.non_blank_lines,
        r.counters.lines_emitted⟩⟩
    else
      let met := allCriteriaMet password is_dictionary_filter_active dictionary_words
        compiled_regexes ignore_case
      let keep := if invert_match then !met else met
      if keep then
        ⟨password :: r.output, ⟨r.counters.total_lines_read + 1,
          r.counters.non_blank_lines + 1, r.counters.lines_emitted + 1⟩⟩
      else
        ⟨r.output, ⟨r.counters.total_lines_read + 1,
          r.counters.non_blank_lines + 1, r.counters.lines_emitted⟩⟩

/-- The function `filter_passwords` of core.py: the wordlist and dictionary
files are their lists of lines, `regex_patterns` is the list of (parsed)
pattern ASTs, and the result collects the emitted lines and counters.
`dictionary_file = none` models passing `None`; an empty `regex_patterns`
list also covers the `None` default, which the code treats identically
(both are falsy at lines 26 and 73). -/
def filter_passwords (wordlist_file : List String) (regex_patterns : List Regex)
    (dictionary_file : Option (List String)) (invert_match ignore_case : Bool) :
    FilterResult :=
  let compiled_regexes := compileRegexes regex_patterns ignore_case
  let is_dictionary_filter_active := dictionary_file.isSome
  let dictionary_words :=
    match dictionary_file with
    | none => []
    | some ls => buildDict ls ignore_case
  runLines compiled_regexes is_dictionary_filter_active dictionary_words
    invert_match ignore_case wordlist_file

/-- Sequence of `n` copies of `.` — the mandatory part of `.{n,}`. -/
def repDot : Nat → Regex
  | 0 => .emptyR
  | n + 1 => .seq (.cls dotP) (repDot n)

/-- Common tail `.{n,}$` of the length presets: `n` dots, then `.*`, then
the end anchor. -/
def tailPat (n : Nat) : Regex :=
  .seq (repDot n) (.seq (.starCls dotP) .anchorEnd)

/-- The compiled pattern of the `min_length_8` / `min_length_12` presets:
a caret, then `n` dots, then `.*` and the end anchor. -/
def minLenPat (n : Nat) : Regex :=
  .seq .anchorStart (tailPat n)

/-- The lookahead body `.*C` used by the strong presets. -/
def containsCls (p : Char → Bool) : Regex :=
  .seq (.starCls dotP) (.cls p)

/-- The compiled pattern of the `strong_8_plus_all_types` and
`strong_12_plus_all_types` presets: a caret, four lookaheads (lowercase,
uppercase, digit, special), then `n` dots, `.*`, and the end anchor. -/
def strongPat (n : Nat) : Regex :=
  .seq .anchorStart
    (.seq (.look (containsCls isLowerAZ))
      (.seq (.look (containsCls isUpperAZ))
        (.seq (.look (containsCls isDigit09))
          (.seq (.look (containsCls isSpecialChar)) (tailPat n)))))

/-- The canonical name / short id pairs of the `PRESETS` table of
presets.py, in definition order.  The regex pattern of each rule is
modelled separately as a `Regex` value where a claim needs it (parsing the
pattern text is the external engine's job); the description strings are
display-only and not part of any claim. -/
def PRESET_NAME_ID_PAIRS : List (String × String) :=
  [("min_length_8", "ml8"),
   ("min_length_12", "ml12"),
   ("has_uppercase", "upper"),
   ("has_lowercase", "lower"),
   ("has_digit", "digit"),
   ("has_special_char", "special"),
   ("has_consecutive_repeated_chars", "consec"),
   ("contains_common_pattern_password", "cmnpwd"),
   ("in_dictionary", "dict"),
   ("strong_8_plus_all_types", "s8all"),
   ("strong_12_plus_all_types", "s12all"),
   ("strong_10_plus_3_of_4_types_LUD", "s10lud"),
   ("only_lowercase", "onlylow"),
   ("only_uppercase", "onlyup"),
   ("only_digits", "onlydig"),
   ("only_alphabetic", "onlyalpha"),
   ("only_alphanumeric", "onlyalnum"),
   ("starts_with_letter", "startlet"),
   ("ends_with_digit", "enddig"),
   ("no_digits", "nodig"),
   ("no_letters", "nolet")]

/-- The keys of the `PRESETS` dict: all canonical preset names. -/
def PRESET_NAMES : List String :=
  PRESET_NAME_ID_PAIRS.map Prod.fst

/-- The `PRESET_ID_TO_NAME_MAP` dict of presets.py line 116: short id to
canonical name. -/
def PRESET_ID_TO_NAME_MAP : List (String × String) :=
  PRESET_NAME_ID_PAIRS.map (fun x => (x.2, x.1))

/-- The function `get_preset_by_name_or_id` of presets.py lines 120-126:
return the identifier itself when it is a canonical name, the mapped
canonical name when it is a short id, and `none` otherwise. -/
def get_preset_by_name_or_id (identifier : String) : Option String :=
  if identifier ∈ PRESET_NAMES then some identifier
  else
    match PRESET_ID_TO_NAME_MAP.lookup identifier with
    | some full_name => some full_name
    | none => none

/-- One selected criterion at the core layer: either a regex rule carrying
its compiled pattern, or the dictionary-membership marker rule
(`in_dictionary`, whose `regex` field is `None` in the catalog). -/
inductive PresetCrit where
  | rx : Regex → PresetCrit
  | dict : PresetCrit

/-- Whether a criterion is the dictionary marker rule. -/
def PresetCrit.isDict : PresetCrit → Bool
  | .rx _ => false
  | .dict => true

/-- Regex patterns contributed by a selection, mirroring cli.py lines
132-137: every selected rule except the dictionary marker contributes its
pattern. -/
def selRegexes (selection : List PresetCrit) : List Regex :=
  selection.filterMap (fun c => match c with | .rx r => some r | .dict => none)

/-- Dictionary source passed to the core, mirroring cli.py lines 114-123:
the dictionary file is active exactly when the `in_dictionary` rule is
among the selections. -/
def selDict (selection : List PresetCrit) (dictionary_lines : List String) :
    Option (List String) :=
  if selection.any PresetCrit.isDict then some dictionary_lines else none

/-- Run of `filter_passwords` on a preset selection, with the regex list
and the dictionary source assembled as cli.py lines 102-137 assemble
them. -/
def runWithSelection (wordlist : List String) (selection : List PresetCrit)
    (dictionary_lines : List String) (invert_match ignore_case : Bool) :
    FilterResult :=
  filter_passwords wordlist (selRegexes selection) (selDict selection dictionary_lines)
    invert_match ignore_case

/-- Outcome of the CLI entry point: either a fatal configuration error
(`parser.error` prints to stderr and exits with status 2, before the core
runs and before anything is written to the output sink) or a completed
filtering run. -/
inductive CliOutcome where
  | configError : Nat → String → CliOutcome
  | ran : FilterResult → CliOutcome
deriving DecidableEq

/-- Lines written to the output sink under each outcome: a configuration
error terminates the process before `filter_passwords` is called, so
nothing is ever written. -/
def CliOutcome.sinkOutput : CliOutcome → List String
  | .configError _ _ => []
  | .ran r => r.output

/-- Exit status: `parser.error` exits with status 2; a completed run exits
normally. -/
def CliOutcome.exitCode : CliOutcome → Nat
  | .configError code _ => code
  | .ran _ => 0

/-- Final criteria check and dispatch of cli.py lines 155-165: once the
active regex patterns and the active dictionary file have been assembled
from the arguments, a run with no regex pattern and no dictionary file is
rejected via `parser.error` (exit status 2) before `filter_passwords` is
invoked; otherwise the core runs. -/
def cliDispatch (wordlist : List String) (active_regex_patterns : List Regex)
    (active_dictionary_file : Option (List String)) (invert_match ignore_case : Bool) :
    CliOutcome :=
  if active_regex_patterns.isEmpty && active_dictionary_file.isNone then
    .configError 2 "No filtering criteria specified. Use --presets or --regex."
  else
    .ran (filter_passwords wordlist active_regex_patterns active_dictionary_file
      invert_match ignore_case)

/-- The trimmed non-blank candidates of an input, in order: what the spec
calls the non-blank lines of the run. -/
def nonBlankCandidates (wordlist : List String) : List String :=
  (wordlist.map pyStrip).filter (fun s => !(s = ""))

/-- Criteria evaluation as `filter_passwords` configures it from its
arguments: the dictionary filter is active iff a dictionary file is given,
and the patterns are compiled under the case flag. -/
def metFn (regex_patterns : List Regex) (dictionary_file : Option (List String))
    (ignore_case : Bool) (password : String) : Bool :=
  allCriteriaMet password dictionary_file.isSome
    (match dictionary_file with
     | none => []
     | some ls => buildDict ls ignore_case)
    (compileRegexes regex_patterns ignore_case) ignore_case

/-- Keep decision for one candidate: the criteria verdict, flipped by
`invert_match`. -/
def keepFn (regex_patterns : List Regex) (dictionary_file : Option (List String))
    (invert_match ignore_case : Bool) (password : String) : Bool :=
  if invert_match then !(metFn regex_patterns dictionary_file ignore_case password)
  else metFn regex_patterns dictionary_file ignore_case password

theorem runLines_output (rs : List Regex) (da : Bool) (dws : List String)
    (inv ic : Bool) (lines : List String) :
    (runLines rs da dws inv ic lines).output =
      ((lines.map pyStrip).filter (fun s => !(s = ""))).filter
        (fun s => if inv then !(allCriteriaMet s da dws rs ic) else allCriteriaMet s da dws rs ic) := by
  induction lines with
  | nil => rfl
  | cons raw rest ih =>
    simp only [runLines, List.map_cons, List.filter_cons]
    by_cases h : pyStrip raw = ""
    · simp only [h, if_pos rfl, decide_True, Bool.not_true]
      simpa using ih
    · by_cases hk :
        (if inv then !(allCriteriaMet (pyStrip raw) da dws rs ic)
         else allCriteriaMet (pyStrip raw) da dws rs ic) = true
      · simp [h, hk, ih]
      · simp [h, hk, ih]

theorem runLines_total (rs : List Regex) (da : Bool) (dws : List String)
    (inv ic : Bool) (lines : List String) :
    (runLines rs da dws inv ic lines).counters.total_lines_read = lines.length := by
  induction lines with
  | nil => rfl
  | cons raw rest ih =>
    simp only [runLines, List.length_cons]
    by_cases h : pyStrip raw = ""
    · simp [h, ih]
    · by_cases hk :
        (if inv then !(allCriteriaMet (pyStrip raw) da dws rs ic)
         else allCriteriaMet (pyStrip raw) da dws rs ic) = true
      · simp [h, hk, ih]
      · simp [h, hk, ih]

theorem runLines_non_blank (rs : List Regex) (da : Bool) (dws : List String)
    (inv ic : Bool) (lines : List String) :
    (runLines rs da dws inv ic lines).counters.non_blank_lines =
      ((lines.map pyStrip).filter (fun s => !(s = ""))).length := by
  induction lines with
  | nil => rfl
  | cons raw rest ih =>
    simp only [runLines, List.map_cons, List.filter_cons]
    by_cases h : pyStrip raw = ""
    · simp [h, ih]
    · by_cases hk :
        (if inv then !(allCriteriaMet (pyStrip raw) da dws rs ic)
         else allCriteriaMet (pyStrip raw) da dws rs ic) = true
      · simp [h, hk, ih]
      · simp [h, hk, ih]

theorem runLines_emitted (rs : List Regex) (da : Bool) (dws : List String)
    (inv ic : Bool) (lines : List String) :
    (runLines rs da dws inv ic lines).counters.lines_emitted =
      (runLines rs da dws inv ic lines).output.length := by
  induction lines with
  | nil => rfl
  | cons raw rest ih =>
    simp only [runLines]
    by_cases h : pyStrip raw = ""
    · simp [h, ih]
    · by_cases hk :
        (if inv then !(allCriteriaMet (pyStrip raw) da dws rs ic)
         else allCriteriaMet (pyStrip raw) da dws rs ic) = true
      · simp [h, hk, ih]
      · simp [h, hk, ih]

theorem filter_passwords_output (wordlist : List String) (rs : List Regex)
    (d : Option (List String)) (inv ic : Bool) :
    (filter_passwords wordlist rs d inv ic).output =
      (nonBlankCandidates wordlist).filter (keepFn rs d inv ic) := by
  cases d with
  | none =>
    simpa [filter_passwords, nonBlankCandidates, keepFn, metFn] using
      runLines_output (compileRegexes rs ic) false [] inv ic wordlist
  | some ls =>
    simpa [filter_passwords, nonBlankCandidates, keepFn, metFn] using
      runLines_output (compileRegexes rs ic) true (buildDict ls ic) inv ic wordlist

theorem mem_filter_passwords_output (wordlist : List String) (rs : List Regex)
    (d : Option (List String)) (inv ic : Bool) (s : String) :
    s ∈ (filter_passwords wordlist rs d inv ic).output ↔
      s ∈ nonBlankCandidates wordlist ∧ keepFn rs d inv ic s = true := by
  rw [filter_passwords_output]
  exact List.mem_filter

theorem filter_passwords_total (wordlist : List String) (rs : List Regex)
    (d : Option (List String)) (inv ic : Bool) :
    (filter_passwords wordlist rs d inv ic).counters.total_lines_read = wordlist.length := by
  cases d with
  | none => simpa [filter_passwords] using runLines_total (compileRegexes rs ic) false [] inv ic wordlist
  | some ls =>
    simpa [filter_passwords] using
      runLines_total (compileRegexes rs ic) true (buildDict ls ic) inv ic wordlist

theorem filter_passwords_non_blank (wordlist : List String) (rs : List Regex)
    (d : Option (List String)) (inv ic : Bool) :
    (filter_passwords wordlist rs d inv ic).counters.non_blank_lines =
      (nonBlankCandidates wordlist).length := by
  cases d with
  | none =>
    simpa [filter_passwords, nonBlankCandidates] using
      runLines_non_blank (compileRegexes rs ic) false [] inv ic wordlist
  | some ls =>
    simpa [filter_passwords, nonBlankCandidates] using
      runLines_non_blank (compileRegexes rs ic) true (buildDict ls ic) inv ic wordlist

theorem filter_passwords_emitted (wordlist : List String) (rs : List Regex)
    (d : Option (List String)) (inv ic : Bool) :
    (filter_passwords wordlist rs d inv ic).counters.lines_emitted =
      (filter_passwords wordlist rs d inv ic).output.length := by
  cases d with
  | none =>
    simpa [filter_passwords] using
      runLines_emitted (compileRegexes rs ic) false [] inv ic wordlist
  | some ls =>
    simpa [filter_passwords] using
      runLines_emitted (compileRegexes rs ic) true (buildDict ls ic) inv ic wordlist

/-- C1, counterexample to the claim as stated: on the five example lines
only three are non-blank ("abc", "ABCDEFGH", "Passw0rd!"), so the code
reports `non_blank_lines = 3`, not 4. -/
theorem C1_counterexample :
    ¬ ((filter_passwords ["abc", "ABCDEFGH", "", "  ", "Passw0rd!"] [minLenPat 8]
        none false false).counters.non_blank_lines = 4) := by
  decide

/-- C1 (amended): the stream filter on the five raw lines "abc",
"ABCDEFGH", "", "  ", "Passw0rd!" with the single preset min-length-8 and
invert false emits exactly "ABCDEFGH" then "Passw0rd!", and the counters
report 5 total lines read, 3 non-blank lines, 2 lines emitted. -/
theorem C1_example_run :
    filter_passwords ["abc", "ABCDEFGH", "", "  ", "Passw0rd!"] [minLenPat 8]
        none false false =
      ⟨["ABCDEFGH", "Passw0rd!"], ⟨5, 3, 2⟩⟩ := by
  decide

/-- C3: a run configured with zero active criteria — no compiled regex
pattern and no dictionary source — is rejected by the CLI as a
configuration error with exit status 2 (non-zero), before `filter_passwords`
runs, so nothing is ever written to the output sink. -/
theorem C3_empty_criteria_config_error (wordlist : List String)
    (invert_match ignore_case : Bool) :
    cliDispatch wordlist [] none invert_match ignore_case =
      CliOutcome.configError 2 "No filtering criteria specified. Use --presets or --regex." ∧
    (cliDispatch wordlist [] none invert_match ignore_case).exitCode ≠ 0 ∧
    (cliDispatch wordlist [] none invert_match ignore_case).sinkOutput = [] := by
  refine ⟨rfl, ?_, rfl⟩
  intro h
  simp [cliDispatch, CliOutcome.exitCode] at h

theorem keepFn_invert (rs : List Regex) (d : Option (List String)) (ic : Bool) (s : String) :
    keepFn rs d true ic s = !(metFn rs d ic s) := by
  simp [keepFn]

theorem keepFn_plain (rs : List Regex) (d : Option (List String)) (ic : Bool) (s : String) :
    keepFn rs d false ic s = metFn rs d ic s := by
  simp [keepFn]

/-- C4: for a fixed input and fixed filter configuration, the lines
emitted with invert on and the lines emitted with invert off are disjoint,
and together they are exactly the trimmed non-blank input lines. -/
theorem C4_invert_partition (wordlist : List String) (regex_patterns : List Regex)
    (dictionary_file : Option (List String)) (ignore_case : Bool) (s : String) :
    ¬ (s ∈ (filter_passwords wordlist regex_patterns dictionary_file true ignore_case).output ∧
       s ∈ (filter_passwords wordlist regex_patterns dictionary_file false ignore_case).output) ∧
    ((s ∈ (filter_passwords wordlist regex_patterns dictionary_file true ignore_case).output ∨
      s ∈ (filter_passwords wordlist regex_patterns dictionary_file false ignore_case).output) ↔
      s ∈ nonBlankCandidates wordlist) := by
  simp only [mem_filter_passwords_output, keepFn_invert, keepFn_plain]
  constructor
  · rintro ⟨⟨_, h1⟩, ⟨_, h2⟩⟩
    rw [h2] at h1
    simp at h1
  · constructor
    · rintro (⟨h, _⟩ | ⟨h, _⟩) <;> exact h
    · intro h
      by_cases hm : metFn regex_patterns dictionary_file ignore_case s = true
      · exact Or.inr ⟨h, hm⟩
      · exact Or.inl ⟨h, by simp [hm]⟩

/-- C4 witness at a concrete input. -/
theorem C4_invert_partition_witness :
    ¬ ("abc" ∈ (filter_passwords ["abc", " "] [minLenPat 8] none true false).output ∧
       "abc" ∈ (filter_passwords ["abc", " "] [minLenPat 8] none false false).output) ∧
    (("abc" ∈ (filter_passwords ["abc", " "] [minLenPat 8] none true false).output ∨
      "abc" ∈ (filter_passwords ["abc", " "] [minLenPat 8] none false false).output) ↔
      "abc" ∈ nonBlankCandidates ["abc", " "]) :=
  C4_invert_partition ["abc", " "] [minLenPat 8] none false "abc"

/-- Verdict of one selected criterion on a candidate, under the run's
case flag and dictionary contents. -/
def critMet (dictionary_lines : List String) (ignore_case : Bool) (s : String) :
    PresetCrit → Bool
  | .rx r => (if ignore_case then r.igcase else r).search s
  | .dict => (buildDict dictionary_lines ignore_case).contains
      (if ignore_case then pyLower s else s)

theorem metFn_selection (sel : List PresetCrit) (dictionary_lines : List String)
    (ic : Bool) (s : String) :
    metFn (selRegexes sel) (selDict sel dictionary_lines) ic s = true ↔
      ∀ c ∈ sel, critMet dictionary_lines ic s c = true := by
  unfold metFn allCriteriaMet selDict
  by_cases hd : sel.any PresetCrit.isDict = true
  · rw [if_pos hd]
    simp only [Option.isSome_some, if_pos rfl, Bool.and_eq_true, List.all_eq_true,
      compileRegexes, List.mem_map]
    constructor
    · rintro ⟨hdict, hrx⟩ c hc
      cases c with
      | dict => exact hdict
      | rx r =>
        refine hrx _ ⟨r, ?_, rfl⟩
        unfold selRegexes
        exact List.mem_filterMap.mpr ⟨.rx r, hc, rfl⟩
    · intro h
      constructor
      · obtain ⟨c, hc, hcd⟩ := List.any_eq_true.mp hd
        cases c with
        | rx r => simp [PresetCrit.isDict] at hcd
        | dict => exact h _ hc
      · rintro x ⟨r, hr, rfl⟩
        obtain ⟨c, hc, hcr⟩ := List.mem_filterMap.mp hr
        cases c with
        | dict => simp at hcr
        | rx r' =>
          simp only [Option.some.injEq] at hcr
          subst hcr
          exact h _ hc
  · rw [if_neg hd]
    simp only [Option.isSome_none, Bool.false_eq_true, if_false, Bool.true_and,
      List.all_eq_true, compileRegexes, List.mem_map]
    constructor
    · intro hrx c hc
      cases c with
      | dict =>
        exact absurd (List.any_eq_true.mpr ⟨.dict, hc, rfl⟩) hd
      | rx r =>
        refine hrx _ ⟨r, ?_, rfl⟩
        unfold selRegexes
        exact List.mem_filterMap.mpr ⟨.rx r, hc, rfl⟩
    · rintro h x ⟨r, hr, rfl⟩
      obtain ⟨c, hc, hcr⟩ := List.mem_filterMap.mp hr
      cases c with
      | dict => simp at hcr
      | rx r' =>
        simp only [Option.some.injEq] at hcr
        subst hcr
        exact h _ hc

/-- C5: filtering with the combined selection [A, B] emits exactly the
intersection of the single-selection results, for any two criteria
including the dictionary rule with a fixed dictionary. -/
theorem C5_combination_is_intersection (wordlist : List String) (A B : PresetCrit)
    (dictionary_lines : List String) (ignore_case : Bool) (s : String) :
    s ∈ (runWithSelection wordlist [A, B] dictionary_lines false ignore_case).output ↔
      (s ∈ (runWithSelection wordlist [A] dictionary_lines false ignore_case).output ∧
       s ∈ (runWithSelection wordlist [B] dictionary_lines false ignore_case).output) := by
  unfold runWithSelection
  simp only [mem_filter_passwords_output, keepFn_plain, metFn_selection]
  constructor
  · rintro ⟨hnb, hm⟩
    refine ⟨⟨hnb, ?_⟩, ⟨hnb, ?_⟩⟩ <;> intro c hc <;> apply hm <;> simp only [List.mem_singleton] at hc <;> simp [hc]
  · rintro ⟨⟨hnb, hA⟩, ⟨_, hB⟩⟩
    refine ⟨hnb, ?_⟩
    intro c hc
    rcases List.mem_cons.mp hc with rfl | hc2
    · exact hA _ (List.mem_singleton.mpr rfl)
    · rw [List.mem_singleton] at hc2
      subst hc2
      exact hB _ (List.mem_singleton.mpr rfl)

/-- C5 witness at a concrete input: min-length-8 combined with the
dictionary rule. -/
theorem C5_combination_is_intersection_witness :
    "ABCDEFGH" ∈ (runWithSelection ["ABCDEFGH", "abc"] [.rx (minLenPat 8), .dict]
        ["ABCDEFGH"] false false).output ↔
      ("ABCDEFGH" ∈ (runWithSelection ["ABCDEFGH", "abc"] [.rx (minLenPat 8)]
          ["ABCDEFGH"] false false).output ∧
       "ABCDEFGH" ∈ (runWithSelection ["ABCDEFGH", "abc"] [.dict]
          ["ABCDEFGH"] false false).output) :=
  C5_combination_is_intersection ["ABCDEFGH", "abc"] (.rx (minLenPat 8)) .dict
    ["ABCDEFGH"] false "ABCDEFGH"

theorem dropWhile_head_false {α : Type} {p : α → Bool} :
    ∀ {l : List α} {a : α} {t : List α}, l.dropWhile p = a :: t → p a = false := by
  intro l
  induction l with
  | nil => intro a t h; simp [List.dropWhile] at h
  | cons c cs ih =>
    intro a t h
    rw [List.dropWhile_cons] at h
    by_cases hc : p c = true
    · rw [if_pos hc] at h
      exact ih h
    · rw [if_neg hc] at h
      cases h
      exact Bool.eq_false_iff.mpr hc

theorem dropWhile_of_head_false {α : Type} {p : α → Bool} {a : α} {t : List α}
    (h : p a = false) : (a :: t).dropWhile p = a :: t := by
  rw [List.dropWhile_cons, if_neg]
  simp [h]

theorem pyStripList_idem (l : List Char) : pyStripList (pyStripList l) = pyStripList l := by
  rcases hBc : (l.dropWhile isPySpace).reverse.dropWhile isPySpace with _ | ⟨b, t2⟩
  · unfold pyStripList
    rw [hBc]
    rfl
  · have hb : isPySpace b = false := dropWhile_head_false hBc
    have hdecomp : (l.dropWhile isPySpace).reverse.takeWhile isPySpace ++ (b :: t2) =
        (l.dropWhile isPySpace).reverse := by
      conv_rhs => rw [← List.takeWhile_append_dropWhile isPySpace (l.dropWhile isPySpace).reverse]
      rw [hBc]
    rcases hrev : (b :: t2).reverse with _ | ⟨a, t⟩
    · simp at hrev
    · have hAcons : l.dropWhile isPySpace =
          a :: (t ++ ((l.dropWhile isPySpace).reverse.takeWhile isPySpace).reverse) := by
        conv_lhs => rw [← List.reverse_reverse (l.dropWhile isPySpace), ← hdecomp]
        rw [List.reverse_append, hrev]
        rfl
      have ha : isPySpace a = false := dropWhile_head_false hAcons
      have hI : ((l.dropWhile isPySpace).reverse.dropWhile isPySpace).reverse = a :: t := by
        rw [hBc]
        exact hrev
      unfold pyStripList
      rw [hI, dropWhile_of_head_false ha]
      have hrevrev : (a :: t).reverse = b :: t2 := by
        rw [← hrev, List.reverse_reverse]
      rw [hrevrev, dropWhile_of_head_false hb]
      exact hrev

theorem pyStrip_idem (s : String) : pyStrip (pyStrip s) = pyStrip s :=
  congrArg String.mk (pyStripList_idem s.data)

/-- Every line a run writes to the output is a fixed point of stripping,
is non-blank, and passed the keep decision of that run. -/
theorem output_members (wordlist : List String) (rs : List Regex) (d : Option (List String))
    (inv ic : Bool) {s : String} (h : s ∈ (filter_passwords wordlist rs d inv ic).output) :
    pyStrip s = s ∧ ¬(s = "") ∧ keepFn rs d inv ic s = true := by
  rw [mem_filter_passwords_output] at h
  obtain ⟨hnb, hk⟩ := h
  unfold nonBlankCandidates at hnb
  rw [List.mem_filter] at hnb
  obtain ⟨hmem, hne⟩ := hnb
  rw [List.mem_map] at hmem
  obtain ⟨raw, _, hraw⟩ := hmem
  refine ⟨?_, by simpa using hne, hk⟩
  rw [← hraw]
  exact pyStrip_idem raw

/-- C6: re-filtering the output of a non-inverted run with the same
filters (non-inverted) reproduces that output unchanged, and re-filtering
the output of an inverted run with the same filters non-inverted emits
nothing. -/
theorem C6_refilter_idempotence (wordlist : List String) (regex_patterns : List Regex)
    (dictionary_file : Option (List String)) (ignore_case : Bool) :
    (filter_passwords ((filter_passwords wordlist regex_patterns dictionary_file false ignore_case).output)
        regex_patterns dictionary_file false ignore_case).output =
      (filter_passwords wordlist regex_patterns dictionary_file false ignore_case).output ∧
    (filter_passwords ((filter_passwords wordlist regex_patterns dictionary_file true ignore_case).output)
        regex_patterns dictionary_file false ignore_case).output = [] := by
  have key : ∀ inv : Bool,
      (filter_passwords ((filter_passwords wordlist regex_patterns dictionary_file inv ignore_case).output)
          regex_patterns dictionary_file false ignore_case).output =
        ((filter_passwords wordlist regex_patterns dictionary_file inv ignore_case).output).filter
          (keepFn regex_patterns dictionary_file false ignore_case) := by
    intro inv
    rw [filter_passwords_output]
    congr 1
    unfold nonBlankCandidates
    have h1 : ((filter_passwords wordlist regex_patterns dictionary_file inv ignore_case).output).map pyStrip =
        (filter_passwords wordlist regex_patterns dictionary_file inv ignore_case).output := by
      rw [List.map_congr_left (g := id) (fun a ha => (output_members _ _ _ _ _ ha).1)]
      exact List.map_id _
    rw [h1]
    exact List.filter_eq_self.mpr
      (fun a ha => by simpa using (output_members _ _ _ _ _ ha).2.1)
  constructor
  · rw [key false]
    exact List.filter_eq_self.mpr (fun a ha => (output_members _ _ _ _ _ ha).2.2)
  · rw [key true]
    refine List.filter_eq_nil_iff.mpr (fun a ha => ?_)
    have hk := (output_members _ _ _ _ _ ha).2.2
    rw [keepFn_invert] at hk
    rw [keepFn_plain]
    simp only [Bool.not_eq_true'] at hk
    simp [hk]

/-- C6 witness at a concrete input. -/
theorem C6_refilter_idempotence_witness :
    (filter_passwords ((filter_passwords ["abc", "ABCDEFGH"] [minLenPat 8] none false false).output)
        [minLenPat 8] none false false).output =
      (filter_passwords ["abc", "ABCDEFGH"] [minLenPat 8] none false false).output ∧
    (filter_passwords ((filter_passwords ["abc", "ABCDEFGH"] [minLenPat 8] none true false).output)
        [minLenPat 8] none false false).output = [] :=
  C6_refilter_idempotence ["abc", "ABCDEFGH"] [minLenPat 8] none false

/-- C10: calling the core directly with an empty pattern list and no
dictionary is not an error: with invert off every trimmed non-blank line is
emitted, with invert on nothing is emitted, and the counters record the
line totals accordingly. -/
theorem C10_no_criteria_passes_everything (wordlist : List String) (ignore_case : Bool) :
    (filter_passwords wordlist [] none false ignore_case).output =
      nonBlankCandidates wordlist ∧
    (filter_passwords wordlist [] none true ignore_case).output = [] ∧
    (filter_passwords wordlist [] none false ignore_case).counters.total_lines_read =
      wordlist.length ∧
    (filter_passwords wordlist [] none false ignore_case).counters.non_blank_lines =
      (nonBlankCandidates wordlist).length ∧
    (filter_passwords wordlist [] none false ignore_case).counters.lines_emitted =
      (nonBlankCandidates wordlist).length ∧
    (filter_passwords wordlist [] none true ignore_case).counters.total_lines_read =
      wordlist.length ∧
    (filter_passwords wordlist [] none true ignore_case).counters.non_blank_lines =
      (nonBlankCandidates wordlist).length ∧
    (filter_passwords wordlist [] none true ignore_case).counters.lines_emitted = 0 := by
  have hmet : ∀ s, metFn [] none ignore_case s = true := by
    intro s
    simp [metFn, allCriteriaMet, compileRegexes]
  have hout : (filter_passwords wordlist [] none false ignore_case).output =
      nonBlankCandidates wordlist := by
    rw [filter_passwords_output]
    exact List.filter_eq_self.mpr (fun a _ => by simp [keepFn, hmet a])
  have hout2 : (filter_passwords wordlist [] none true ignore_case).output = [] := by
    rw [filter_passwords_output]
    exact List.filter_eq_nil_iff.mpr (fun a _ => by simp [keepFn, hmet a])
  refine ⟨hout, hout2, filter_passwords_total _ _ _ _ _, filter_passwords_non_blank _ _ _ _ _,
    ?_, filter_passwords_total _ _ _ _ _, filter_passwords_non_blank _ _ _ _ _, ?_⟩
  · rw [filter_passwords_emitted, hout]
  · rw [filter_passwords_emitted, hout2]
    rfl

/-- C8: inserting a raw line that is empty or whitespace-only anywhere in
the input changes only `total_lines_read` (by one): the blank line is never
written to the sink and never counted in `non_blank_lines`, under every
filter set and every combination of the invert and case flags. -/
theorem C8_blank_line_excluded (pre post : List String) (raw : String)
    (hblank : pyStrip raw = "") (regex_patterns : List Regex)
    (dictionary_file : Option (List String)) (invert_match ignore_case : Bool) :
    (filter_passwords (pre ++ raw :: post) regex_patterns dictionary_file
        invert_match ignore_case).output =
      (filter_passwords (pre ++ post) regex_patterns dictionary_file
        invert_match ignore_case).output ∧
    (filter_passwords (pre ++ raw :: post) regex_patterns dictionary_file
        invert_match ignore_case).counters.non_blank_lines =
      (filter_passwords (pre ++ post) regex_patterns dictionary_file
        invert_match ignore_case).counters.non_blank_lines ∧
    (filter_passwords (pre ++ raw :: post) regex_patterns dictionary_file
        invert_match ignore_case).counters.total_lines_read =
      (filter_passwords (pre ++ post) regex_patterns dictionary_file
        invert_match ignore_case).counters.total_lines_read + 1 := by
  have hnb : nonBlankCandidates (pre ++ raw :: post) = nonBlankCandidates (pre ++ post) := by
    unfold nonBlankCandidates
    simp [List.map_append, List.filter_append, hblank]
  refine ⟨?_, ?_, ?_⟩
  · rw [filter_passwords_output, filter_passwords_output, hnb]
  · rw [filter_passwords_non_blank, filter_passwords_non_blank, hnb]
  · rw [filter_passwords_total, filter_passwords_total]
    simp [List.length_append]
    omega

/-- C8 witness at a concrete input. -/
theorem C8_blank_line_excluded_witness :
    (filter_passwords (["abc"] ++ "  " :: ["ABCDEFGH"]) [minLenPat 8] none false false).output =
      (filter_passwords (["abc"] ++ ["ABCDEFGH"]) [minLenPat 8] none false false).output ∧
    (filter_passwords (["abc"] ++ "  " :: ["ABCDEFGH"]) [minLenPat 8] none false
        false).counters.non_blank_lines =
      (filter_passwords (["abc"] ++ ["ABCDEFGH"]) [minLenPat 8] none false
        false).counters.non_blank_lines ∧
    (filter_passwords (["abc"] ++ "  " :: ["ABCDEFGH"]) [minLenPat 8] none false
        false).counters.total_lines_read =
      (filter_passwords (["abc"] ++ ["ABCDEFGH"]) [minLenPat 8] none false
        false).counters.total_lines_read + 1 :=
  C8_blank_line_excluded ["abc"] ["ABCDEFGH"] "  " (by decide) [minLenPat 8] none false false

theorem lookup_eq_none_of_forall_not {β : Type} {l : List (String × β)} {k : String}
    (h : ∀ v, (k, v) ∉ l) : l.lookup k = none := by
  induction l with
  | nil => rfl
  | cons p t ih =>
    obtain ⟨a, b⟩ := p
    have hka : (k == a) = false := by
      simp only [beq_eq_false_iff_ne, ne_eq]
      exact fun he => h b (by rw [he]; exact List.mem_cons_self _ _)
    rw [List.lookup_cons, hka]
    exact ih (fun v hv => h v (List.mem_cons_of_mem _ hv))

theorem lookup_of_mem_nodupKeys {β : Type} {l : List (String × β)} {k : String} {v : β}
    (hn : (l.map Prod.fst).Nodup) (h : (k, v) ∈ l) : l.lookup k = some v := by
  induction l with
  | nil => cases h
  | cons p t ih =>
    obtain ⟨a, b⟩ := p
    rcases List.mem_cons.mp h with he | ht
    · injection he with h1 h2
      subst h1
      subst h2
      exact List.lookup_cons_self
    · obtain ⟨ha, ht'⟩ : (∀ x : β, (a, x) ∉ t) ∧ (t.map Prod.fst).Nodup := by
        simpa using hn
      have hka : (k == a) = false := by
        simp only [beq_eq_false_iff_ne, ne_eq]
        intro he
        subst he
        exact ha v ht
      rw [List.lookup_cons, hka]
      exact ih ht' ht

theorem mem_of_lookup_eq_some {β : Type} {l : List (String × β)} {k : String} {v : β}
    (h : l.lookup k = some v) : (k, v) ∈ l := by
  induction l with
  | nil => cases h
  | cons p t ih =>
    obtain ⟨a, b⟩ := p
    rw [List.lookup_cons] at h
    rcases hbeq : (k == a) with _ | _
    · rw [hbeq] at h
      exact List.mem_cons_of_mem _ (ih h)
    · rw [hbeq] at h
      have hk : k = a := by simpa using hbeq
      have hv : some b = some v := h
      injection hv with hv
      subst hv
      subst hk
      exact List.mem_cons_self _ _

/-- C9: the catalog resolver returns the canonical name when the
identifier is a canonical name or a short id, returns `none` when it is
neither, and never maps an unknown identifier to a rule. -/
theorem C9_resolve_contract (identifier : String) :
    (identifier ∈ PRESET_NAMES → get_preset_by_name_or_id identifier = some identifier) ∧
    (∀ full_name, (identifier, full_name) ∈ PRESET_ID_TO_NAME_MAP →
      get_preset_by_name_or_id identifier = some full_name) ∧
    ((identifier ∉ PRESET_NAMES ∧ ∀ n, (identifier, n) ∉ PRESET_ID_TO_NAME_MAP) →
      get_preset_by_name_or_id identifier = none) ∧
    (∀ n, get_preset_by_name_or_id identifier = some n →
      ((identifier = n ∧ n ∈ PRESET_NAMES) ∨ (identifier, n) ∈ PRESET_ID_TO_NAME_MAP)) := by
  refine ⟨?_, ?_, ?_, ?_⟩
  · intro h
    unfold get_preset_by_name_or_id
    rw [if_pos h]
  · intro full_name hmem
    have hid : identifier ∈ PRESET_ID_TO_NAME_MAP.map Prod.fst :=
      List.mem_map_of_mem Prod.fst hmem
    have hnotname : identifier ∉ PRESET_NAMES := by
      intro hname
      have hdisj : ∀ x ∈ PRESET_ID_TO_NAME_MAP.map Prod.fst, x ∉ PRESET_NAMES := by decide
      exact hdisj _ hid hname
    unfold get_preset_by_name_or_id
    rw [if_neg hnotname, lookup_of_mem_nodupKeys (by decide) hmem]
  · rintro ⟨hname, hids⟩
    unfold get_preset_by_name_or_id
    rw [if_neg hname, lookup_eq_none_of_forall_not hids]
  · intro n h
    unfold get_preset_by_name_or_id at h
    by_cases hname : identifier ∈ PRESET_NAMES
    · rw [if_pos hname] at h
      have : identifier = n := by simpa using h
      subst this
      exact Or.inl ⟨rfl, hname⟩
    · rw [if_neg hname] at h
      rcases hl : PRESET_ID_TO_NAME_MAP.lookup identifier with _ | m
      · rw [hl] at h
        cases h
      · rw [hl] at h
        have : m = n := by simpa using h
        subst this
        exact Or.inr (mem_of_lookup_eq_some hl)

/-- C9 witness at concrete identifiers. -/
theorem C9_resolve_contract_witness :
    get_preset_by_name_or_id "ml8" = some "min_length_8" ∧
    get_preset_by_name_or_id "min_length_8" = some "min_length_8" ∧
    get_preset_by_name_or_id "unknown" = none :=
  ⟨(C9_resolve_contract "ml8").2.1 "min_length_8" (by decide),
   (C9_resolve_contract "min_length_8").1 (by decide),
   (C9_resolve_contract "unknown").2.2.1 ⟨by decide, fun n hn => by
     simp [PRESET_ID_TO_NAME_MAP, PRESET_NAME_ID_PAIRS] at hn⟩⟩

/-- Match attempt at position `i` of the subject string: the `^` anchor
sees only position 0 as the start. -/
def Regex.matchesAt (r : Regex) (s : String) (i : Nat) : Bool :=
  r.matchesHere (i == 0) (s.data.drop i)

theorem searchFrom_iff (r : Regex) :
    ∀ (l : List Char) (st : Bool),
      searchFrom r st l = true ↔
        ∃ i, i ≤ l.length ∧ r.matchesHere ((i == 0) && st) (l.drop i) = true := by
  intro l
  induction l with
  | nil =>
    intro st
    constructor
    · intro h
      exact ⟨0, Nat.le_refl 0, by simpa [searchFrom] using h⟩
    · rintro ⟨i, hi, hm⟩
      have h0 : i = 0 := Nat.le_zero.mp hi
      subst h0
      simpa [searchFrom] using hm
  | cons c cs ih =>
    intro st
    simp only [searchFrom, Bool.or_eq_true]
    constructor
    · rintro (h | h)
      · exact ⟨0, Nat.zero_le _, by simpa using h⟩
      · obtain ⟨j, hj, hm⟩ := (ih false).mp h
        refine ⟨j + 1, Nat.succ_le_succ hj, ?_⟩
        simpa using hm
    · rintro ⟨i, hi, hm⟩
      cases i with
      | zero => exact Or.inl (by simpa using hm)
      | succ j =>
        refine Or.inr ((ih false).mpr ⟨j, Nat.le_of_succ_le_succ hi, ?_⟩)
        simpa using hm

theorem search_iff_matchesAt (r : Regex) (s : String) :
    r.search s = true ↔ ∃ i, i ≤ s.length ∧ r.matchesAt s i = true := by
  unfold Regex.search Regex.matchesAt
  rw [searchFrom_iff]
  simp only [Bool.and_true]
  exact Iff.rfl

/-- C2: the line evaluator accepts a candidate iff (a) when the dictionary
filter is active, the candidate — lower-cased in case-insensitive mode,
unchanged otherwise — is a member of the dictionary set, and (b) every
compiled regex matcher in the filter set finds a match at some position of
the candidate (search semantics: anchors constrain only where the pattern
itself writes them). -/
theorem C2_evaluator_iff (password : String) (is_dictionary_filter_active : Bool)
    (dictionary_words : List String) (compiled_regexes : List Regex) (ignore_case : Bool) :
    allCriteriaMet password is_dictionary_filter_active dictionary_words compiled_regexes
        ignore_case = true ↔
      ((is_dictionary_filter_active = true →
          (if ignore_case then pyLower password else password) ∈ dictionary_words) ∧
       ∀ r ∈ compiled_regexes, ∃ i, i ≤ password.length ∧ r.matchesAt password i = true) := by
  unfold allCriteriaMet
  simp only [Bool.and_eq_true, List.all_eq_true]
  constructor
  · rintro ⟨hd, hr⟩
    refine ⟨?_, fun r hrm => (search_iff_matchesAt r password).mp (hr r hrm)⟩
    intro hact
    rw [if_pos hact] at hd
    simpa [List.contains] using hd
  · rintro ⟨hd, hr⟩
    refine ⟨?_, fun r hrm => (search_iff_matchesAt r password).mpr (hr r hrm)⟩
    by_cases hact : is_dictionary_filter_active = true
    · rw [if_pos hact]
      simpa [List.contains] using hd hact
    · rw [if_neg hact]

/-- C2 witness at a concrete input. -/
theorem C2_evaluator_iff_witness :
    allCriteriaMet "Passw0rd!" true ["Passw0rd!"] [Regex.cls isDigit09] false = true :=
  (C2_evaluator_iff "Passw0rd!" true ["Passw0rd!"] [Regex.cls isDigit09] false).mpr
    ⟨fun _ => by decide, fun r hr => by
      rw [List.mem_singleton] at hr
      subst hr
      exact ⟨5, by decide, by decide⟩⟩

theorem repDot_mtch (n : Nat) (st : Bool) (l : List Char) :
    (repDot n).mtch st l =
      if n ≤ l.length ∧ (l.take n).all dotP = true then
        [(if n = 0 then st else false, l.drop n)]
      else [] := by
  induction n generalizing st l with
  | zero => simp [repDot, Regex.mtch]
  | succ n ih =>
    cases l with
    | nil =>
      rw [if_neg]
      · simp [repDot, Regex.mtch]
      · rintro ⟨h1, _⟩
        simp at h1
    | cons c cs =>
      simp only [repDot, Regex.mtch]
      by_cases hc : dotP c = true
      · rw [if_pos hc, List.flatMap_cons, List.flatMap_nil, List.append_nil, ih]
        have hiff : (n + 1 ≤ (c :: cs).length ∧ ((c :: cs).take (n + 1)).all dotP = true) ↔
            (n ≤ cs.length ∧ (cs.take n).all dotP = true) := by
          rw [List.length_cons, List.take_succ_cons, List.all_cons, hc]
          simp [Nat.succ_le_succ_iff]
        by_cases hcond : n ≤ cs.length ∧ (cs.take n).all dotP = true
        · rw [if_pos hcond, if_pos (hiff.mpr hcond)]
          simp
        · rw [if_neg hcond, if_neg (fun h => hcond (hiff.mp h))]
      · rw [if_neg hc, List.flatMap_nil, if_neg]
        rintro ⟨_, h2⟩
        rw [List.take_succ_cons, List.all_cons] at h2
        simp [hc] at h2

theorem mem_starRem {p : Char → Bool} :
    ∀ (l : List Char) (x : Bool × List Char),
      x ∈ starRem p l ↔
        ∃ k, k ≤ l.length ∧ (l.take k).all p = true ∧
          x = (decide ¬(k = 0), l.drop k) := by
  intro l
  induction l with
  | nil =>
    intro x
    simp only [starRem, List.mem_singleton]
    constructor
    · rintro rfl
      exact ⟨0, by simp, by simp, by simp⟩
    · rintro ⟨k, hk, _, rfl⟩
      have h0 : k = 0 := Nat.le_zero.mp hk
      subst h0
      simp
  | cons c cs ih =>
    intro x
    simp only [starRem, List.mem_cons]
    by_cases hc : p c = true
    · rw [if_pos hc]
      constructor
      · rintro (rfl | hx)
        · exact ⟨0, by simp, by simp, by simp⟩
        · rw [List.mem_map] at hx
          obtain ⟨y, hy, rfl⟩ := hx
          obtain ⟨k, hk, hall, hy2⟩ := (ih y).mp hy
          refine ⟨k + 1, by simpa using Nat.succ_le_succ hk, ?_, ?_⟩
          · simp [List.take_succ_cons, hc, hall]
          · rw [hy2]
            simp
      · rintro ⟨k, hk, hall, rfl⟩
        cases k with
        | zero => exact Or.inl (by simp)
        | succ m =>
          refine Or.inr (List.mem_map.mpr ⟨(decide ¬(m = 0), cs.drop m), ?_, by simp⟩)
          refine (ih _).mpr ⟨m, Nat.le_of_succ_le_succ hk, ?_, rfl⟩
          simpa [List.take_succ_cons, hc] using hall
    · rw [if_neg hc]
      constructor
      · rintro (rfl | hx)
        · exact ⟨0, by simp, by simp, by simp⟩
        · cases hx
      · rintro ⟨k, hk, hall, rfl⟩
        cases k with
        | zero => exact Or.inl (by simp)
        | succ m =>
          exfalso
          rw [List.take_succ_cons, List.all_cons] at hall
          simp [hc] at hall

theorem seq_here (a b : Regex) (st : Bool) (l : List Char) :
    (Regex.seq a b).matchesHere st l = true ↔
      ∃ y ∈ a.mtch st l, b.matchesHere y.1 y.2 = true := by
  unfold Regex.matchesHere
  constructor
  · intro h
    rw [Bool.not_eq_true', List.isEmpty_eq_false_iff_exists_mem] at h
    obtain ⟨x, hx⟩ := h
    rw [show (Regex.seq a b).mtch st l = (a.mtch st l).flatMap (fun r => b.mtch r.1 r.2)
      from rfl, List.mem_flatMap] at hx
    obtain ⟨y, hy, hxy⟩ := hx
    refine ⟨y, hy, ?_⟩
    rw [Bool.not_eq_true', List.isEmpty_eq_false_iff_exists_mem]
    exact ⟨x, hxy⟩
  · rintro ⟨y, hy, hb⟩
    rw [Bool.not_eq_true', List.isEmpty_eq_false_iff_exists_mem] at hb ⊢
    obtain ⟨x, hx⟩ := hb
    refine ⟨x, ?_⟩
    rw [show (Regex.seq a b).mtch st l = (a.mtch st l).flatMap (fun r => b.mtch r.1 r.2)
      from rfl, List.mem_flatMap]
    exact ⟨y, hy, hx⟩

theorem anchorEnd_here (st : Bool) (l : List Char) :
    Regex.anchorEnd.matchesHere st l = (l.isEmpty || l == [Char.ofNat 10]) := by
  by_cases h : (l.isEmpty || l == [Char.ofNat 10]) = true
  · simp [Regex.matchesHere, Regex.mtch, h]
  · have h' : (l.isEmpty || l == [Char.ofNat 10]) = false := Bool.eq_false_iff.mpr h
    simp [Regex.matchesHere, Regex.mtch, h', h]

theorem starEnd_here (st : Bool) (l : List Char) :
    (Regex.seq (.starCls dotP) .anchorEnd).matchesHere st l = true ↔
      ∃ k, k ≤ l.length ∧ (l.take k).all dotP = true ∧
        (l.drop k = [] ∨ l.drop k = [Char.ofNat 10]) := by
  rw [seq_here]
  constructor
  · rintro ⟨y, hy, hb⟩
    rw [show (Regex.starCls dotP).mtch st l =
      (starRem dotP l).map (fun r => (if r.1 then false else st, r.2)) from rfl,
      List.mem_map] at hy
    obtain ⟨z, hz, rfl⟩ := hy
    obtain ⟨k, hk, hall, rfl⟩ := (mem_starRem _ _).mp hz
    rw [anchorEnd_here] at hb
    refine ⟨k, hk, hall, ?_⟩
    simpa [List.isEmpty_eq_true] using hb
  · rintro ⟨k, hk, hall, hend⟩
    refine ⟨(if decide ¬(k = 0) then false else st, l.drop k), ?_, ?_⟩
    · rw [show (Regex.starCls dotP).mtch st l =
        (starRem dotP l).map (fun r => (if r.1 then false else st, r.2)) from rfl,
        List.mem_map]
      exact ⟨(decide ¬(k = 0), l.drop k), (mem_starRem _ _).mpr ⟨k, hk, hall, rfl⟩, rfl⟩
    · rw [anchorEnd_here]
      rcases hend with h | h <;> simp [h]

theorem tail_here (n : Nat) (st : Bool) (l : List Char) :
    (tailPat n).matchesHere st l = true ↔
      ∃ m, n ≤ m ∧ m ≤ l.length ∧ (l.take m).all dotP = true ∧
        (l.drop m = [] ∨ l.drop m = [Char.ofNat 10]) := by
  unfold tailPat
  rw [seq_here]
  constructor
  · rintro ⟨y, hy, hb⟩
    rw [repDot_mtch] at hy
    by_cases hcond : n ≤ l.length ∧ (l.take n).all dotP = true
    · rw [if_pos hcond, List.mem_singleton] at hy
      subst hy
      rw [starEnd_here] at hb
      obtain ⟨k, hk, hall, hend⟩ := hb
      rw [List.length_drop] at hk
      refine ⟨n + k, Nat.le_add_right _ _, by omega, ?_, ?_⟩
      · rw [List.take_add, List.all_append, hcond.2, hall]
        rfl
      · rw [← List.drop_drop]
        exact hend
    · rw [if_neg hcond] at hy
      cases hy
  · rintro ⟨m, hnm, hm, hall, hend⟩
    have hcond : n ≤ l.length ∧ (l.take n).all dotP = true := by
      refine ⟨by omega, ?_⟩
      have ht : l.take n = (l.take m).take n := by
        rw [List.take_take, Nat.min_eq_left hnm]
      rw [ht, List.all_eq_true]
      rw [List.all_eq_true] at hall
      exact fun x hx => hall x (List.take_subset _ _ hx)
    refine ⟨(if n = 0 then st else false, l.drop n), ?_, ?_⟩
    · rw [repDot_mtch, if_pos hcond]
      exact List.mem_singleton.mpr rfl
    · rw [starEnd_here]
      refine ⟨m - n, ?_, ?_, ?_⟩
      · rw [List.length_drop]
        omega
      · have hm' : m = n + (m - n) := by omega
        rw [hm', List.take_add, List.all_append] at hall
        exact (Bool.and_eq_true _ _).mp hall |>.2
      · rw [List.drop_drop]
        have hm' : n + (m - n) = m := by omega
        rw [hm']
        exact hend

theorem anchorStart_searchFrom_false (r : Regex) :
    ∀ l : List Char, searchFrom (Regex.seq .anchorStart r) false l = false := by
  intro l
  induction l with
  | nil => simp [searchFrom, Regex.matchesHere, Regex.mtch]
  | cons c cs ih => simp [searchFrom, Regex.matchesHere, Regex.mtch, ih]

theorem anchored_search (r : Regex) (s : String) :
    (Regex.seq .anchorStart r).search s = r.matchesHere true s.data := by
  unfold Regex.search
  cases hd : s.data with
  | nil => simp [searchFrom, Regex.matchesHere, Regex.mtch]
  | cons c cs =>
    simp only [searchFrom]
    rw [anchorStart_searchFrom_false]
    simp [Regex.matchesHere, Regex.mtch]

theorem look_seq_here (a b : Regex) (st : Bool) (l : List Char) :
    (Regex.seq (.look a) b).matchesHere st l = (a.matchesHere st l && b.matchesHere st l) := by
  by_cases h : (a.mtch st l).isEmpty = true
  · simp [Regex.matchesHere, Regex.mtch, h]
  · simp [Regex.matchesHere, Regex.mtch, h]

theorem contains_here (p : Char → Bool) (st : Bool) (l : List Char) :
    (containsCls p).matchesHere st l = true ↔
      ∃ pre c post, l = pre ++ c :: post ∧ pre.all dotP = true ∧ p c = true := by
  unfold containsCls
  rw [seq_here]
  constructor
  · rintro ⟨y, hy, hb⟩
    rw [show (Regex.starCls dotP).mtch st l =
      (starRem dotP l).map (fun r => (if r.1 then false else st, r.2)) from rfl,
      List.mem_map] at hy
    obtain ⟨z, hz, rfl⟩ := hy
    obtain ⟨k, hk, hall, rfl⟩ := (mem_starRem _ _).mp hz
    rcases hdrop : l.drop k with _ | ⟨c, post⟩
    · rw [hdrop] at hb
      simp [Regex.matchesHere, Regex.mtch] at hb
    · refine ⟨l.take k, c, post, ?_, hall, ?_⟩
      · rw [← hdrop, List.take_append_drop]
      · rw [hdrop] at hb
        by_cases hpc : p c = true
        · exact hpc
        · simp [Regex.matchesHere, Regex.mtch, hpc] at hb
  · rintro ⟨pre, c, post, rfl, hall, hpc⟩
    refine ⟨(if decide ¬(pre.length = 0) then false else st, c :: post), ?_, ?_⟩
    · rw [show (Regex.starCls dotP).mtch st (pre ++ c :: post) =
        (starRem dotP (pre ++ c :: post)).map (fun r => (if r.1 then false else st, r.2))
        from rfl, List.mem_map]
      refine ⟨(decide ¬(pre.length = 0), c :: post), ?_, rfl⟩
      refine (mem_starRem _ _).mpr ⟨pre.length, ?_, ?_, ?_⟩
      · rw [List.length_append]
        omega
      · rw [List.take_left]
        exact hall
      · rw [List.drop_left]
    · simp [Regex.matchesHere, Regex.mtch, hpc]

theorem cls_searchFrom (p : Char → Bool) :
    ∀ (l : List Char) (st : Bool), searchFrom (Regex.cls p) st l = l.any p := by
  intro l
  induction l with
  | nil =>
    intro st
    simp [searchFrom, Regex.matchesHere, Regex.mtch]
  | cons c cs ih =>
    intro st
    simp only [searchFrom, List.any_cons, ih]
    by_cases hc : p c = true <;> simp [Regex.matchesHere, Regex.mtch, hc]

theorem cls_search_any (p : Char → Bool) (s : String) :
    (Regex.cls p).search s = s.data.any p := by
  unfold Regex.search
  exact cls_searchFrom p s.data true

theorem any_of_contains {p : Char → Bool} {l : List Char}
    (h : ∃ pre c post, l = pre ++ c :: post ∧ pre.all dotP = true ∧ p c = true) :
    l.any p = true := by
  obtain ⟨pre, c, post, heq, _, hpc⟩ := h
  rw [List.any_eq_true]
  exact ⟨c, by rw [heq]; exact List.mem_append_right _ (List.mem_cons_self _ _), hpc⟩

theorem look_of_any {p : Char → Bool} {l : List Char} {m : Nat}
    (hall : (l.take m).all dotP = true)
    (hend : l.drop m = [] ∨ l.drop m = [Char.ofNat 10])
    (hany : l.any p = true) :
    ∃ pre c post, l = pre ++ c :: post ∧ pre.all dotP = true ∧ p c = true := by
  rw [List.any_eq_true] at hany
  obtain ⟨c, hcmem, hpc⟩ := hany
  obtain ⟨pre, post, heq⟩ := List.append_of_mem hcmem
  subst heq
  refine ⟨pre, c, post, rfl, ?_, hpc⟩
  rw [List.all_eq_true]
  intro x hx
  have hm1 : (pre ++ c :: post).length ≤ m + 1 := by
    rcases hend with h | h
    · have := List.drop_eq_nil_iff.mp h
      omega
    · have hlen : ((pre ++ c :: post).drop m).length = 1 := by rw [h]; rfl
      rw [List.length_drop] at hlen
      omega
  have hpre : pre.length ≤ m := by
    have hl : (pre ++ c :: post).length = pre.length + (post.length + 1) := by
      rw [List.length_append, List.length_cons]
    omega
  have hx2 : x ∈ (pre ++ c :: post).take m := by
    have h1 : ((pre ++ c :: post).take m).take pre.length = pre := by
      rw [List.take_take, Nat.min_eq_left hpre, List.take_left]
    have hx1 : x ∈ ((pre ++ c :: post).take m).take pre.length := by
      rw [h1]
      exact hx
    exact List.take_subset _ _ hx1
  rw [List.all_eq_true] at hall
  exact hall x hx2

theorem strong_iff_conj (n : Nat) (s : String) :
    (strongPat n).search s = true ↔
      ((minLenPat n).search s = true ∧ (Regex.cls isLowerAZ).search s = true ∧
       (Regex.cls isUpperAZ).search s = true ∧ (Regex.cls isDigit09).search s = true ∧
       (Regex.cls isSpecialChar).search s = true) := by
  unfold strongPat minLenPat
  rw [anchored_search, anchored_search, look_seq_here, look_seq_here, look_seq_here,
    look_seq_here, cls_search_any, cls_search_any, cls_search_any, cls_search_any]
  simp only [Bool.and_eq_true]
  rw [contains_here, contains_here, contains_here, contains_here, tail_here]
  constructor
  · rintro ⟨h1, h2, h3, h4, ht⟩
    exact ⟨ht, any_of_contains h1, any_of_contains h2, any_of_contains h3,
      any_of_contains h4⟩
  · rintro ⟨ht, h1, h2, h3, h4⟩
    obtain ⟨m, hnm, hm, hall, hend⟩ := ht
    exact ⟨look_of_any hall hend h1, look_of_any hall hend h2,
      look_of_any hall hend h3, look_of_any hall hend h4,
      ⟨m, hnm, hm, hall, hend⟩⟩

/-- C7: for every candidate string, the single atomic rule
strong-8-plus-all-types holds iff the conjunction of min-length-8,
has-lowercase, has-uppercase, has-digit and has-special-char holds, and
strong-12-plus-all-types likewise equals the same conjunction with
min-length-12 (each rule evaluated with `search` semantics, as the tool
evaluates presets). -/
theorem C7_strong_equals_conjunction (s : String) :
    ((strongPat 8).search s = true ↔
      ((minLenPat 8).search s = true ∧ (Regex.cls isLowerAZ).search s = true ∧
       (Regex.cls isUpperAZ).search s = true ∧ (Regex.cls isDigit09).search s = true ∧
       (Regex.cls isSpecialChar).search s = true)) ∧
    ((strongPat 12).search s = true ↔
      ((minLenPat 12).search s = true ∧ (Regex.cls isLowerAZ).search s = true ∧
       (Regex.cls isUpperAZ).search s = true ∧ (Regex.cls isDigit09).search s = true ∧
       (Regex.cls isSpecialChar).search s = true)) :=
  ⟨strong_iff_conj 8 s, strong_iff_conj 12 s⟩

/-- C7 witness at a concrete candidate. -/
theorem C7_strong_equals_conjunction_witness :
    (strongPat 8).search "Aa0!bcde" = true ∧ (minLenPat 8).search "Aa0!bcde" = true :=
  ⟨((C7_strong_equals_conjunction "Aa0!bcde").1).mpr
     ⟨by decide, by decide, by decide, by decide, by decide⟩,
   by decide⟩
